import Mathlib

/-!
Shallow embedding of `mackerel-plugin-postgres/lib/postgres.go`.

Go `map[string]interface{}` values are modelled as association lists over a
small value type (`uint64` counters as `ℕ` with additions wrapping `% 2 ^ 64`,
`float64` fields abstracted as exact rationals `ℚ`).  Database interaction is
modelled by an environment (`DBEnv`) that records, for each query the code
issues, either a query-execution failure or the list of result rows, where a
row is `none` when its scan/decode fails and `some r` when it scans to `r`.
Errors are `Except Unit` (Go `error` values are treated as opaque).
-/

namespace MPPostgres

/-- Value stored in a metric map: a Go `uint64` (wrapping naturals) or a Go
`float64` (abstracted as an exact rational). -/
inductive MetricValue where
  | uint (n : ℕ)
  | float (q : ℚ)
  deriving DecidableEq, Repr

/-- Model of Go `map[string]interface{}`: an association list with at most one
binding per key in all maps the code builds. -/
abbrev StatMap := List (String × MetricValue)

/-- Lookup in a `StatMap` (first binding wins, mirroring unique-key Go maps). -/
def mapGet? : StatMap → String → Option MetricValue
  | [], _ => none
  | (k0, v0) :: rest, k => if k0 = k then some v0 else mapGet? rest k

/-- Go map assignment `m[k] = v`: replace the existing binding in place, or
append a new one. -/
def mapSet : StatMap → String → MetricValue → StatMap
  | [], k, v => [(k, v)]
  | (k0, v0) :: rest, k, v =>
      if k0 = k then (k, v) :: rest else (k0, v0) :: mapSet rest k v

/-- Source `mergeStat(dst, src)`: `for k, v := range src { dst[k] = v }`. -/
def mergeStat (dst src : StatMap) : StatMap :=
  src.foldl (fun d kv => mapSet d kv.1 kv.2) dst

/-- Source `FetchMetrics` merge sequence: fresh map, then merge the
database-wide counters, the connection-state buckets, and the size map, in
that order. -/
def canonicalStat (s1 s2 s3 : StatMap) : StatMap :=
  mergeStat (mergeStat (mergeStat [] s1) s2) s3

/-! ### Version detector (`versionRe`, `fetchVersion`) -/

/-- Source `type version struct { first, second, thrird uint }` (field name
`thrird` is the source's own spelling). -/
structure version where
  first : ℕ
  second : ℕ
  thrird : ℕ
  deriving DecidableEq, Repr

/-- Match a literal character sequence at the front of `l`, returning the
rest on success. -/
def stripLit : List Char → List Char → Option (List Char)
  | [], rest => some rest
  | _ :: _, [] => none
  | c :: cs, d :: ds => if c = d then stripLit cs ds else none

/-- Attempt to match the pattern `PostgreSQL (\d+)\.(\d+)(\.(\d+))? ` at the
start of `l`, returning the digit texts of groups 1, 2 and (optionally) 4.
Maximal munch on each `\d+` is exact here because every `\d+` is followed by a
non-digit (`.` or a space), so backtracking can never extend a match. -/
def matchVersionAt (l : List Char) : Option (List Char × List Char × Option (List Char)) :=
  match stripLit "PostgreSQL ".data l with
  | none => none
  | some r0 =>
    let d1 := r0.takeWhile Char.isDigit
    let r1 := r0.dropWhile Char.isDigit
    if d1 = [] then none else
    match r1 with
    | '.' :: r2 =>
      let d2 := r2.takeWhile Char.isDigit
      let r3 := r2.dropWhile Char.isDigit
      if d2 = [] then none else
      match r3 with
      | '.' :: r4 =>
        let d3 := r4.takeWhile Char.isDigit
        let r5 := r4.dropWhile Char.isDigit
        if d3 ≠ [] ∧ r5.head? = some ' ' then some (d1, d2, some d3) else none
      | ' ' :: _ => some (d1, d2, none)
      | _ => none
    | _ => none

/-- Go `versionRe.FindStringSubmatch`: leftmost match of the version pattern.
On a match Go returns a 5-element slice `[whole, g1, g2, g3, g4]` where an
unmatched optional group is the empty string; we return the texts of groups
1, 2 and 4 (`none` for group 4 standing for the empty capture). -/
def findStringSubmatch : List Char → Option (List Char × List Char × Option (List Char))
  | [] => matchVersionAt []
  | l@(_ :: rest) =>
    match matchVersionAt l with
    | some m => some m
    | none => findStringSubmatch rest

/-- Go `strconv.ParseUint(s, 10, 0)` on a 64-bit platform: fails on the empty
string or any non-digit, and on values not representable in 64 bits. -/
def parseUint (s : List Char) : Except Unit ℕ :=
  if s = [] then .error ()
  else if s.all Char.isDigit then
    let n := s.foldl (fun a c => a * 10 + (c.toNat - 48)) 0
    if n < 2 ^ 64 then .ok n else .error ()
  else .error ()

/-- Row loop of source `fetchVersion`: a row whose scan fails (`none`) aborts
with that error; a row whose text does not match the pattern is passed over
(`len(submatch) >= 4` is false only when there is no match); on a match the
code always takes the `len(submatch) == 5` branch (Go's submatch slice always
has 5 entries on a match), so group 4's text — the empty string when the
optional patch group is absent — is fed to `ParseUint`. -/
def fetchVersionRows : List (Option String) → Except Unit version
  | [] => .error ()
  | none :: _ => .error ()
  | some s :: rest =>
    match findStringSubmatch s.data with
    | none => fetchVersionRows rest
    | some (d1, d2, od3) =>
      match parseUint d1 with
      | .error e => .error e
      | .ok first =>
        match parseUint d2 with
        | .error e => .error e
        | .ok second =>
          match parseUint (od3.getD []) with
          | .error e => .error e
          | .ok third => .ok ⟨first, second, third⟩

/-- Source `fetchVersion`: a failure of the `select version()` query is
surfaced; otherwise the row loop runs. -/
def fetchVersion (q : Except Unit (List (Option String))) : Except Unit version :=
  match q with
  | .error e => .error e
  | .ok rows => fetchVersionRows rows

/-! ### Query selector and state normalizer (`fetchConnections`) -/

/-- Query used for PostgreSQL ≥ 9.6 (derives the waiting flag from
`wait_event`). -/
def modernActivityQuery : String :=
  "select count(*), state, wait_event is not null from pg_stat_activity group by state, wait_event is not null"

/-- Query used for PostgreSQL < 9.6 (reads the legacy `waiting` column). -/
def legacyActivityQuery : String :=
  "select count(*), state, waiting from pg_stat_activity group by state, waiting"

/-- Query selection at the top of source `fetchConnections`:
`version.first > 9 || version.first == 9 && version.second >= 6`. -/
def selectQuery (v : version) : String :=
  if 9 < v.first ∨ (v.first = 9 ∧ 6 ≤ v.second) then modernActivityQuery
  else legacyActivityQuery

/-- Character class `[a-zA-Z0-9_-]` of the source's `normalizeRe` (Go regexp
character classes here are ASCII-only, as is `Char.isAlphanum`). -/
def isAllowedChar (c : Char) : Bool :=
  c.isAlphanum || c = '_' || c = '-'

/-- Kernel of `normalizeRe.ReplaceAllString(state, "_")` for the pattern
`[^a-zA-Z0-9_-]+`: every maximal run of disallowed characters becomes a
single underscore.  The boolean records whether we are inside such a run. -/
def replRun : List Char → Bool → List Char
  | [], _ => []
  | c :: rest, inRun =>
    if isAllowedChar c then c :: replRun rest false
    else if inRun then replRun rest true
    else '_' :: replRun rest true

/-- Source call `normalizeRe.ReplaceAllString(state, "_")`. -/
def replaceRuns (l : List Char) : List Char :=
  replRun l false

/-- Go `strings.TrimRight(s, "_")`: drop all trailing underscores. -/
def trimRightUnderscores (l : List Char) : List Char :=
  (l.reverse.dropWhile (fun c => c = '_')).reverse

/-- Per-row key normalization of source `fetchConnections`: collapse runs of
disallowed characters, strip trailing underscores, then append `_waiting`
exactly when the row's waiting flag is set. -/
def normalizeState (state : String) (waiting : Bool) : String :=
  let s := String.mk (trimRightUnderscores (replaceRuns state.data))
  if waiting then s ++ "_waiting" else s

/-! ### The three stat aggregators -/

/-- Source struct `pgStat` scanned from `pg_stat_database` rows: `uint64`
counters as naturals, nullable counters as `Option` (`*float64` timing fields
as optional rationals). -/
structure pgStat where
  xact_commit : ℕ := 0
  xact_rollback : ℕ := 0
  blks_read : ℕ := 0
  blks_hit : ℕ := 0
  blk_read_time : Option ℚ := none
  blk_write_time : Option ℚ := none
  tup_returned : ℕ := 0
  tup_fetched : ℕ := 0
  tup_inserted : ℕ := 0
  tup_updated : ℕ := 0
  tup_deleted : ℕ := 0
  deadlocks : Option ℕ := none
  temp_bytes : Option ℕ := none
  deriving DecidableEq, Repr

/-- Go `uint64` addition. -/
def addU64 (a b : ℕ) : ℕ :=
  (a + b) % 2 ^ 64

/-- Accumulation of a nullable `uint64` counter (lines 88–94 / 95–101 of the
source): a null row field leaves the accumulator alone; the first non-null
value is copied; later non-null values are added. -/
def optStepU64 (a b : Option ℕ) : Option ℕ :=
  match b with
  | none => a
  | some v =>
    match a with
    | none => some v
    | some w => some (addU64 w v)

/-- Accumulation of a nullable `float64` counter (lines 69–75 / 76–82). -/
def optStepQ (a b : Option ℚ) : Option ℚ :=
  match b with
  | none => a
  | some v =>
    match a with
    | none => some v
    | some w => some (w + v)

/-- One iteration of the `fetchStatDatabase` row loop body. -/
def statAdd (t p : pgStat) : pgStat where
  xact_commit := addU64 t.xact_commit p.xact_commit
  xact_rollback := addU64 t.xact_rollback p.xact_rollback
  blks_read := addU64 t.blks_read p.blks_read
  blks_hit := addU64 t.blks_hit p.blks_hit
  blk_read_time := optStepQ t.blk_read_time p.blk_read_time
  blk_write_time := optStepQ t.blk_write_time p.blk_write_time
  tup_returned := addU64 t.tup_returned p.tup_returned
  tup_fetched := addU64 t.tup_fetched p.tup_fetched
  tup_inserted := addU64 t.tup_inserted p.tup_inserted
  tup_updated := addU64 t.tup_updated p.tup_updated
  tup_deleted := addU64 t.tup_deleted p.tup_deleted
  deadlocks := optStepU64 t.deadlocks p.deadlocks
  temp_bytes := optStepU64 t.temp_bytes p.temp_bytes

/-- Map construction at the end of `fetchStatDatabase` (lines 103–124): the
four nullable counters contribute a binding only when their accumulator is
non-null. -/
def statMapOf (t : pgStat) : StatMap :=
  [("xact_commit", .uint t.xact_commit), ("xact_rollback", .uint t.xact_rollback),
   ("blks_read", .uint t.blks_read), ("blks_hit", .uint t.blks_hit)]
  ++ (match t.blk_read_time with | some q => [("blk_read_time", .float q)] | none => [])
  ++ (match t.blk_write_time with | some q => [("blk_write_time", .float q)] | none => [])
  ++ [("tup_returned", .uint t.tup_returned), ("tup_fetched", .uint t.tup_fetched),
      ("tup_inserted", .uint t.tup_inserted), ("tup_updated", .uint t.tup_updated),
      ("tup_deleted", .uint t.tup_deleted)]
  ++ (match t.deadlocks with | some n => [("deadlocks", .uint n)] | none => [])
  ++ (match t.temp_bytes with | some n => [("temp_bytes", .uint n)] | none => [])

/-- Row loop plus map construction of `fetchStatDatabase`: a row whose
`StructScan` fails (`none`) is logged and skipped. -/
def statDatabaseOf (rows : List (Option pgStat)) : StatMap :=
  statMapOf (rows.foldl
    (fun acc r => match r with | none => acc | some p => statAdd acc p) {})

/-- Source `fetchStatDatabase`: a failure of the `pg_stat_database` query is
surfaced, otherwise the aggregation always succeeds. -/
def fetchStatDatabase (q : Except Unit (List (Option pgStat))) : Except Unit StatMap :=
  match q with
  | .error e => .error e
  | .ok rows => .ok (statDatabaseOf rows)

/-- Row of the `pg_stat_activity` query: `(count, state, waiting)` as scanned
by source `fetchConnections` (`count` is scanned into a `float64`). -/
structure ConnRow where
  count : ℚ
  state : String
  waiting : Bool
  deriving DecidableEq, Repr

/-- Map literal seeding the five well-known connection-state keys to zero
(lines 142–148). -/
def connSeed : StatMap :=
  [("active", .float 0), ("active_waiting", .float 0), ("idle", .float 0),
   ("idle_in_transaction", .float 0), ("idle_in_transaction_aborted", .float 0)]

/-- Row loop of `fetchConnections`: a row whose scan fails is skipped; a
scanned row's normalized key is assigned the row's count. -/
def connStatOf (rows : List (Option ConnRow)) : StatMap :=
  rows.foldl
    (fun stat r =>
      match r with
      | none => stat
      | some c => mapSet stat (normalizeState c.state c.waiting) (.float c.count))
    connSeed

/-- Source `fetchConnections`: select the query by version, surface a query
failure, otherwise aggregate the rows the database returned for that query. -/
def fetchConnections (v : version)
    (activity : String → Except Unit (List (Option ConnRow))) : Except Unit StatMap :=
  match activity (selectQuery v) with
  | .error e => .error e
  | .ok rows => .ok (connStatOf rows)

/-- Row loop of `fetchDatabaseSize`: sum the per-database sizes, skipping rows
whose scan fails, and emit the single `total_size` metric. -/
def databaseSizeOf (rows : List (Option ℚ)) : StatMap :=
  [("total_size",
    .float (rows.foldl (fun tot r => match r with | none => tot | some d => tot + d) 0))]

/-- Source `fetchDatabaseSize`: surface a query failure, otherwise succeed. -/
def fetchDatabaseSize (q : Except Unit (List (Option ℚ))) : Except Unit StatMap :=
  match q with
  | .error e => .error e
  | .ok rows => .ok (databaseSizeOf rows)

/-! ### `FetchMetrics` -/

/-- Connection lifecycle events of one `FetchMetrics` invocation (`sqlx.Connect`
and the deferred `db.Close()`). -/
inductive DBEvent where
  | connect
  | close
  deriving DecidableEq, Repr

/-- Behaviour of the database across the queries one `FetchMetrics` invocation
issues: whether the connection opens, and, per query, either a query-execution
failure or the result rows (a row is `none` when its scan fails). -/
structure DBEnv where
  connectOk : Bool
  versionRows : Except Unit (List (Option String))
  statDatabaseRows : Except Unit (List (Option pgStat))
  activityRows : String → Except Unit (List (Option ConnRow))
  databaseSizeRows : Except Unit (List (Option ℚ))

/-- Source `FetchMetrics` (lines 258–292): open the connection (its close is
deferred, so every later return path closes it), detect the version, run the
three aggregators in order, abort on the first failure, and merge the three
maps.  Result: the chronological connection events, the returned map, and
whether an error was returned. -/
def FetchMetrics (env : DBEnv) : List DBEvent × Option StatMap × Bool :=
  if env.connectOk = false then ([], none, true)
  else
    match fetchVersion env.versionRows with
    | .error _ => ([.connect, .close], none, true)
    | .ok v =>
      match fetchStatDatabase env.statDatabaseRows with
      | .error _ => ([.connect, .close], none, true)
      | .ok s1 =>
        match fetchConnections v env.activityRows with
        | .error _ => ([.connect, .close], none, true)
        | .ok s2 =>
          match fetchDatabaseSize env.databaseSizeRows with
          | .error _ => ([.connect, .close], none, true)
          | .ok s3 => ([.connect, .close], some (canonicalStat s1 s2 s3), false)

/-! ### `GraphDefinition` -/

/-- One metric descriptor of a graph (source `mp.Metrics`). -/
structure Metrics where
  name : String
  label : String
  diff : Bool
  stacked : Bool
  deriving DecidableEq, Repr

/-- One graph declaration (source `mp.Graphs`). -/
structure Graphs where
  label : String
  unit : String
  metrics : List Metrics
  deriving DecidableEq, Repr

/-- Source `GraphDefinition`, as a function of the title-cased label text
(`strings.Title(p.MetricKeyPrefix())`, which only affects display labels and
is not modelled further). -/
def GraphDefinition (lp : String) : List (String × Graphs) :=
  [("connections",
    { label := lp ++ " Connections", unit := "integer",
      metrics :=
        [{ name := "active", label := "Active", diff := false, stacked := true },
         { name := "active_waiting", label := "Active waiting", diff := false, stacked := true },
         { name := "idle", label := "Idle", diff := false, stacked := true },
         { name := "idle_in_transaction", label := "Idle in transaction", diff := false, stacked := true },
         { name := "idle_in_transaction_aborted_", label := "Idle in transaction (aborted)", diff := false, stacked := true },
         { name := "fastpath_function_call", label := "fast-path function call", diff := false, stacked := true },
         { name := "disabled", label := "Disabled", diff := false, stacked := true }] }),
   ("commits",
    { label := lp ++ " Commits", unit := "integer",
      metrics :=
        [{ name := "xact_commit", label := "Xact Commit", diff := true, stacked := false },
         { name := "xact_rollback", label := "Xact Rollback", diff := true, stacked := false }] }),
   ("blocks",
    { label := lp ++ " Blocks", unit := "integer",
      metrics :=
        [{ name := "blks_read", label := "Blocks Read", diff := true, stacked := false },
         { name := "blks_hit", label := "Blocks Hit", diff := true, stacked := false }] }),
   ("rows",
    { label := lp ++ " Rows", unit := "integer",
      metrics :=
        [{ name := "tup_returned", label := "Returned Rows", diff := true, stacked := false },
         { name := "tup_fetched", label := "Fetched Rows", diff := true, stacked := true },
         { name := "tup_inserted", label := "Inserted Rows", diff := true, stacked := true },
         { name := "tup_updated", label := "Updated Rows", diff := true, stacked := true },
         { name := "tup_deleted", label := "Deleted Rows", diff := true, stacked := true }] }),
   ("size",
    { label := lp ++ " Data Size", unit := "integer",
      metrics :=
        [{ name := "total_size", label := "Total Size", diff := false, stacked := false }] }),
   ("deadlocks",
    { label := lp ++ " Dead Locks", unit := "integer",
      metrics :=
        [{ name := "deadlocks", label := "Deadlocks", diff := true, stacked := false }] }),
   ("iotime",
    { label := lp ++ " Block I/O time", unit := "float",
      metrics :=
        [{ name := "blk_read_time", label := "Block Read Time (ms)", diff := true, stacked := false },
         { name := "blk_write_time", label := "Block Write Time (ms)", diff := true, stacked := false }] }),
   ("tempfile",
    { label := lp ++ " Temporary file", unit := "integer",
      metrics :=
        [{ name := "temp_bytes", label := "Temporary file size (byte)", diff := true, stacked := false }] })]

/-! ## Helper lemmas -/

/-- Folding a row loop that skips `none` rows is folding over the rows that
scanned successfully. -/
theorem foldl_skipNone {α β : Type _} (h : β → Option α → β) (f : β → α → β)
    (h1 : ∀ b, h b none = b) (h2 : ∀ b x, h b (some x) = f b x) :
    ∀ (l : List (Option α)) (b : β), l.foldl h b = (l.filterMap id).foldl f b := by
  intro l
  induction l with
  | nil => intro b; rfl
  | cons o rest ih =>
    intro b
    cases o with
    | none => simpa [h1] using ih b
    | some x => simpa [h2] using ih (f b x)

/-- Lookup after a Go map assignment. -/
theorem mapGet?_mapSet (m : StatMap) (k k' : String) (v : MetricValue) :
    mapGet? (mapSet m k v) k' = if k' = k then some v else mapGet? m k' := by
  induction m with
  | nil =>
    by_cases hk : k' = k <;> simp [mapSet, mapGet?, hk]
    exact fun h => (hk h.symm).elim
  | cons e rest ih =>
    obtain ⟨k0, v0⟩ := e
    by_cases h0 : k0 = k
    · subst h0
      by_cases hk : k' = k0
      · subst hk
        simp [mapSet, mapGet?]
      · simp [mapSet, mapGet?, hk, Ne.symm hk]
    · by_cases hk : k' = k
      · subst hk
        simp [mapSet, h0, mapGet?, Ne.symm h0, ih]
      · simp only [mapSet, if_neg h0, mapGet?]
        by_cases h0' : k0 = k' <;> simp [h0', ih, hk]

/-- A key outside a map's key list does not look up. -/
theorem mapGet?_eq_none (m : StatMap) (k : String) (h : k ∉ m.map Prod.fst) :
    mapGet? m k = none := by
  induction m with
  | nil => rfl
  | cons e rest ih =>
    simp only [List.map_cons, List.mem_cons] at h
    push_neg at h
    simpa [mapGet?, Ne.symm h.1] using ih h.2

/-- Function `fetchStatDatabase` fails exactly on a query failure. -/
theorem fetchStatDatabase_error_iff (q : Except Unit (List (Option pgStat))) :
    fetchStatDatabase q = .error () ↔ q = .error () := by
  cases q <;> simp [fetchStatDatabase]

/-- Function `fetchConnections` fails exactly on a failure of the selected query. -/
theorem fetchConnections_error_iff (v : version)
    (activity : String → Except Unit (List (Option ConnRow))) :
    fetchConnections v activity = .error () ↔ activity (selectQuery v) = .error () := by
  rcases h : activity (selectQuery v) with e | rows <;> simp [fetchConnections, h]

/-- Function `fetchDatabaseSize` fails exactly on a query failure. -/
theorem fetchDatabaseSize_error_iff (q : Except Unit (List (Option ℚ))) :
    fetchDatabaseSize q = .error () ↔ q = .error () := by
  cases q <;> simp [fetchDatabaseSize]

/-! ## Claim theorems -/

/-- C1.  The claim is wrong about the code and right about the intent: on the
matched string `"PostgreSQL 10.0 on x86_64-pc-linux-gnu, compiled by gcc"`
the pattern matches with the optional patch group absent (captures `10`, `0`,
no patch), yet `fetchVersion` returns an error rather than `(10, 0, 0)`,
because the Go submatch slice always has 5 entries on a match and the code
feeds the empty patch capture to `ParseUint`.  Three-component strings and
non-matching strings behave as the claim says. -/
theorem fetchVersion_patch_absent_bug :
    findStringSubmatch "PostgreSQL 10.0 on x86_64-pc-linux-gnu, compiled by gcc".data
        = some ("10".data, "0".data, none)
    ∧ fetchVersion (.ok [some "PostgreSQL 10.0 on x86_64-pc-linux-gnu, compiled by gcc"])
        = .error ()
    ∧ fetchVersion (.ok [some "PostgreSQL 9.6.1 on x86_64"]) = .ok ⟨9, 6, 1⟩
    ∧ fetchVersion (.ok [some "no version here"]) = .error () := by
  refine ⟨?_, ?_, ?_, ?_⟩ <;> rfl

/-- C3.  The query selector is a pure function of the version: it yields the
modern (`wait_event`-based) query exactly when `major > 9 ∨ (major = 9 ∧
minor ≥ 6)`, the legacy (`waiting`-column) query otherwise; `(9,5,*)` is
legacy while `(9,6,0)` and `(10,0,0)` are modern. -/
theorem selectQuery_boundary :
    modernActivityQuery ≠ legacyActivityQuery
    ∧ (∀ v : version,
        selectQuery v = modernActivityQuery ↔ 9 < v.first ∨ (v.first = 9 ∧ 6 ≤ v.second))
    ∧ (∀ v : version,
        ¬(9 < v.first ∨ (v.first = 9 ∧ 6 ≤ v.second)) → selectQuery v = legacyActivityQuery)
    ∧ (∀ p : ℕ, selectQuery ⟨9, 5, p⟩ = legacyActivityQuery)
    ∧ selectQuery ⟨9, 6, 0⟩ = modernActivityQuery
    ∧ selectQuery ⟨10, 0, 0⟩ = modernActivityQuery := by
  have hne : modernActivityQuery ≠ legacyActivityQuery := by decide
  refine ⟨hne, fun v => ?_, fun v hv => ?_, fun p => ?_, ?_, ?_⟩
  · by_cases h : 9 < v.first ∨ (v.first = 9 ∧ 6 ≤ v.second)
    · simp [selectQuery, h]
    · simp only [selectQuery, if_neg h]
      exact ⟨fun he => (hne he.symm).elim, fun hc => (h hc).elim⟩
  · simp [selectQuery, hv]
  · simp [selectQuery]
  · simp [selectQuery]
  · simp [selectQuery]

/-- C3 witness: `(9,5,0)` lies below the boundary and selects the legacy
query. -/
theorem selectQuery_boundary_witness :
    selectQuery ⟨9, 5, 0⟩ = legacyActivityQuery :=
  selectQuery_boundary.2.2.1 ⟨9, 5, 0⟩ (by decide)

/-- C8.  In every aggregator a row whose scan fails is skipped: the output
over a row list equals the output over the sublist of successfully scanned
rows, and the aggregator still succeeds; only a query-execution failure
aborts. -/
theorem aggregators_skip_failed_rows :
    (∀ rows : List (Option pgStat),
        statDatabaseOf rows = statDatabaseOf (((rows.filterMap id).map some))
        ∧ fetchStatDatabase (.ok rows) = .ok (statDatabaseOf rows))
    ∧ (∀ rows : List (Option ConnRow),
        connStatOf rows = connStatOf (((rows.filterMap id).map some))
        ∧ ∀ v : version, fetchConnections v (fun _ => .ok rows) = .ok (connStatOf rows))
    ∧ (∀ rows : List (Option ℚ),
        databaseSizeOf rows = databaseSizeOf (((rows.filterMap id).map some))
        ∧ fetchDatabaseSize (.ok rows) = .ok (databaseSizeOf rows))
    ∧ fetchStatDatabase (.error ()) = .error ()
    ∧ (∀ v : version, fetchConnections v (fun _ => .error ()) = .error ())
    ∧ fetchDatabaseSize (.error ()) = .error () := by
  have hmap : ∀ {α : Type} (l : List α), (l.map some).filterMap id = l := by
    intro α l
    induction l with
    | nil => rfl
    | cons x rest ih => simp [ih]
  refine ⟨fun rows => ⟨?_, rfl⟩, fun rows => ⟨?_, fun v => ?_⟩, fun rows => ⟨?_, rfl⟩, rfl,
    fun v => rfl, rfl⟩
  · unfold statDatabaseOf
    rw [foldl_skipNone _ statAdd (fun _ => rfl) (fun _ _ => rfl),
      foldl_skipNone _ statAdd (fun _ => rfl) (fun _ _ => rfl), hmap]
  · unfold connStatOf
    rw [foldl_skipNone _
        (fun stat c => mapSet stat (normalizeState c.state c.waiting) (.float c.count))
        (fun _ => rfl) (fun _ _ => rfl),
      foldl_skipNone _
        (fun stat c => mapSet stat (normalizeState c.state c.waiting) (.float c.count))
        (fun _ => rfl) (fun _ _ => rfl), hmap]
  · rfl
  · unfold databaseSizeOf
    rw [foldl_skipNone _ (fun tot d => tot + d) (fun _ => rfl) (fun _ _ => rfl),
      foldl_skipNone _ (fun tot d => tot + d) (fun _ => rfl) (fun _ _ => rfl), hmap]

/-- C9.  The connection events of any `FetchMetrics` invocation are balanced:
when the connection opens, the trace ends with the single close event on
every exit path; when the connection fails to open, nothing is ever opened or
closed. -/
theorem fetchMetrics_connection_scoped :
    (∀ env : DBEnv,
        ((FetchMetrics env).1.count DBEvent.connect = (FetchMetrics env).1.count DBEvent.close))
    ∧ (∀ env : DBEnv, env.connectOk = true →
        (FetchMetrics env).1.getLast? = some DBEvent.close
        ∧ (FetchMetrics env).1.count DBEvent.close = 1)
    ∧ (∀ env : DBEnv, env.connectOk = false → (FetchMetrics env).1 = []) := by
  refine ⟨fun env => ?_, fun env h => ?_, fun env h => ?_⟩
  · unfold FetchMetrics
    repeat' split
    all_goals rfl
  · unfold FetchMetrics
    rw [if_neg (by simp [h])]
    repeat' split
    all_goals exact ⟨rfl, rfl⟩
  · unfold FetchMetrics
    rw [h]
    rfl

/-- C7.  One `FetchMetrics` invocation returns a map exactly when it returns
no error (never a partial map alongside an error); on success the map is the
three-way merge of the aggregator outputs; and an error is returned exactly
on a connection failure, a version-detection failure, or a query failure of
one of the three aggregators. -/
theorem fetchMetrics_error_contract (env : DBEnv) :
    ((FetchMetrics env).2.1 = none ↔ (FetchMetrics env).2.2 = true)
    ∧ ((FetchMetrics env).2.2 = false →
        ∃ v s1 s2 s3,
          fetchVersion env.versionRows = .ok v
          ∧ fetchStatDatabase env.statDatabaseRows = .ok s1
          ∧ fetchConnections v env.activityRows = .ok s2
          ∧ fetchDatabaseSize env.databaseSizeRows = .ok s3
          ∧ (FetchMetrics env).2.1 = some (canonicalStat s1 s2 s3))
    ∧ ((FetchMetrics env).2.2 = true ↔
        env.connectOk = false
        ∨ fetchVersion env.versionRows = .error ()
        ∨ env.statDatabaseRows = .error ()
        ∨ (∃ v, fetchVersion env.versionRows = .ok v
            ∧ env.activityRows (selectQuery v) = .error ())
        ∨ env.databaseSizeRows = .error ()) := by
  by_cases hc : env.connectOk = false
  · have hred : FetchMetrics env = ([], none, true) := by simp [FetchMetrics, hc]
    rw [hred]
    exact ⟨by simp, by simp, iff_of_true rfl (Or.inl hc)⟩
  · rcases hv : fetchVersion env.versionRows with e | v
    · obtain ⟨⟩ := e
      have hred : FetchMetrics env = ([.connect, .close], none, true) := by
        simp [FetchMetrics, hc, hv]
      rw [hred]
      exact ⟨by simp, by simp, iff_of_true rfl (Or.inr (Or.inl rfl))⟩
    · rcases hs1 : fetchStatDatabase env.statDatabaseRows with e | s1
      · obtain ⟨⟩ := e
        have hred : FetchMetrics env = ([.connect, .close], none, true) := by
          simp [FetchMetrics, hc, hv, hs1]
        rw [hred]
        refine ⟨by simp, by simp, iff_of_true rfl (Or.inr (Or.inr (Or.inl ?_)))⟩
        exact (fetchStatDatabase_error_iff _).mp hs1
      · rcases hs2 : fetchConnections v env.activityRows with e | s2
        · obtain ⟨⟩ := e
          have hred : FetchMetrics env = ([.connect, .close], none, true) := by
            simp [FetchMetrics, hc, hv, hs1, hs2]
          rw [hred]
          refine ⟨by simp, by simp,
            iff_of_true rfl (Or.inr (Or.inr (Or.inr (Or.inl ⟨v, rfl, ?_⟩))))⟩
          exact (fetchConnections_error_iff _ _).mp hs2
        · rcases hs3 : fetchDatabaseSize env.databaseSizeRows with e | s3
          · obtain ⟨⟩ := e
            have hred : FetchMetrics env = ([.connect, .close], none, true) := by
              simp [FetchMetrics, hc, hv, hs1, hs2, hs3]
            rw [hred]
            refine ⟨by simp, by simp,
              iff_of_true rfl (Or.inr (Or.inr (Or.inr (Or.inr ?_))))⟩
            exact (fetchDatabaseSize_error_iff _).mp hs3
          · have hred : FetchMetrics env
                = ([.connect, .close], some (canonicalStat s1 s2 s3), false) := by
              simp [FetchMetrics, hc, hv, hs1, hs2, hs3]
            rw [hred]
            refine ⟨by simp, fun _ => ⟨v, s1, s2, s3, rfl, rfl, hs2, rfl, rfl⟩,
              iff_of_false (by simp) ?_⟩
            rintro (h | h | h | ⟨v', hv', ha⟩ | h)
            · exact hc h
            · exact absurd h (by simp)
            · have hthis : fetchStatDatabase env.statDatabaseRows = .error () :=
                (fetchStatDatabase_error_iff _).mpr h
              rw [hs1] at hthis
              exact absurd hthis (by simp)
            · injection hv' with hvv
              subst hvv
              have hthis : fetchConnections v env.activityRows = .error () :=
                (fetchConnections_error_iff _ _).mpr ha
              rw [hs2] at hthis
              exact absurd hthis (by simp)
            · have hthis : fetchDatabaseSize env.databaseSizeRows = .error () :=
                (fetchDatabaseSize_error_iff _).mpr h
              rw [hs3] at hthis
              exact absurd hthis (by simp)

/-- C7 witness: with the connection open but the version query failing,
`FetchMetrics` returns no map. -/
theorem fetchMetrics_error_contract_witness :
    (FetchMetrics
      { connectOk := true, versionRows := .error (), statDatabaseRows := .ok [],
        activityRows := fun _ => .ok [], databaseSizeRows := .ok [] }).2.1 = none :=
  (fetchMetrics_error_contract _).1.mpr rfl

/-- Projections of the `fetchStatDatabase` accumulator fold, for the fields
claim C2 speaks about: each field of the accumulator evolves independently. -/
theorem foldl_statAdd_fields (ps : List pgStat) :
    ∀ a : pgStat,
      ((ps.foldl statAdd a).xact_commit
          = (ps.map pgStat.xact_commit).foldl addU64 a.xact_commit)
      ∧ ((ps.foldl statAdd a).blk_read_time
          = (ps.map pgStat.blk_read_time).foldl optStepQ a.blk_read_time)
      ∧ ((ps.foldl statAdd a).blk_write_time
          = (ps.map pgStat.blk_write_time).foldl optStepQ a.blk_write_time)
      ∧ ((ps.foldl statAdd a).deadlocks
          = (ps.map pgStat.deadlocks).foldl optStepU64 a.deadlocks)
      ∧ ((ps.foldl statAdd a).temp_bytes
          = (ps.map pgStat.temp_bytes).foldl optStepU64 a.temp_bytes) := by
  induction ps with
  | nil => exact fun a => ⟨rfl, rfl, rfl, rfl, rfl⟩
  | cons p rest ih =>
    intro a
    simpa [statAdd] using ih (statAdd a p)

/-- Folding wrapping `uint64` addition computes the wrapped sum. -/
theorem foldl_addU64 (vs : List ℕ) :
    ∀ a : ℕ, a < 2 ^ 64 → vs.foldl addU64 a = (a + vs.sum) % 2 ^ 64 := by
  induction vs with
  | nil => intro a ha; simpa using (Nat.mod_eq_of_lt ha).symm
  | cons v rest ih =>
    intro a ha
    have h := ih (addU64 a v) (Nat.mod_lt _ (by positivity))
    simpa [addU64, Nat.mod_add_mod, add_assoc] using h

/-- Folding the nullable-`uint64` accumulation step from a present value. -/
theorem foldl_optStepU64_some (vs : List ℕ) :
    ∀ w : ℕ, w < 2 ^ 64 →
      vs.foldl (fun o v => optStepU64 o (some v)) (some w) = some ((w + vs.sum) % 2 ^ 64) := by
  induction vs with
  | nil => intro w hw; simpa using (Nat.mod_eq_of_lt hw).symm
  | cons v rest ih =>
    intro w hw
    have h := ih ((w + v) % 2 ^ 64) (Nat.mod_lt _ (by positivity))
    simpa [optStepU64, addU64, Nat.mod_add_mod, add_assoc] using h

/-- Folding the nullable-`uint64` accumulation step from an absent value:
absent exactly when no value arrives, otherwise the wrapped sum of the
arriving values. -/
theorem foldl_optStepU64_none (vs : List ℕ) (hvs : ∀ v ∈ vs, v < 2 ^ 64) :
    vs.foldl (fun o v => optStepU64 o (some v)) none
      = if vs = [] then none else some (vs.sum % 2 ^ 64) := by
  cases vs with
  | nil => rfl
  | cons v rest =>
    have h := foldl_optStepU64_some rest v (hvs v (by simp))
    simpa [optStepU64] using h

/-- Folding the nullable-`float64` accumulation step from a present value. -/
theorem foldl_optStepQ_some (vs : List ℚ) :
    ∀ w : ℚ, vs.foldl (fun o v => optStepQ o (some v)) (some w) = some (w + vs.sum) := by
  induction vs with
  | nil => intro w; simp
  | cons v rest ih =>
    intro w
    simpa [optStepQ, add_assoc] using ih (w + v)

/-- Folding the nullable-`float64` accumulation step from an absent value. -/
theorem foldl_optStepQ_none (vs : List ℚ) :
    vs.foldl (fun o v => optStepQ o (some v)) none
      = if vs = [] then none else some vs.sum := by
  cases vs with
  | nil => rfl
  | cons v rest => simpa [optStepQ] using foldl_optStepQ_some rest v

/-- Lookups into the map `fetchStatDatabase` builds, for the fields C2 speaks
about: nullable fields are bound iff their accumulator is non-null. -/
theorem statMapOf_lookup (t : pgStat) :
    mapGet? (statMapOf t) "xact_commit" = some (.uint t.xact_commit)
    ∧ mapGet? (statMapOf t) "blk_read_time" = t.blk_read_time.map MetricValue.float
    ∧ mapGet? (statMapOf t) "blk_write_time" = t.blk_write_time.map MetricValue.float
    ∧ mapGet? (statMapOf t) "deadlocks" = t.deadlocks.map MetricValue.uint
    ∧ mapGet? (statMapOf t) "temp_bytes" = t.temp_bytes.map MetricValue.uint := by
  obtain ⟨xc, xr, br, bh, brt, bwt, tr, tf, ti, tu, td, dl, tb⟩ := t
  rcases brt with _ | q1 <;> rcases bwt with _ | q2 <;>
    rcases dl with _ | n1 <;> rcases tb with _ | n2 <;>
    exact ⟨rfl, rfl, rfl, rfl, rfl⟩

/-- C2.  In the database-wide aggregator, each nullable counter appears in the
output map iff some successfully scanned row carried a non-null value for it,
and then equals the sum of exactly those non-null values (`uint64` counters
sum with 64-bit wrap, timing counters as exact rationals); always-present
counters such as `xact_commit` always appear and equal the (wrapped) sum over
all scanned rows.  The `uint64` bound hypothesis states that row values are
64-bit, as Go's scan guarantees. -/
theorem statDatabase_field_sums (rows : List (Option pgStat))
    (hWF : ∀ p ∈ rows.filterMap id,
      p.deadlocks.getD 0 < 2 ^ 64 ∧ p.temp_bytes.getD 0 < 2 ^ 64) :
    fetchStatDatabase (.ok rows) = .ok (statDatabaseOf rows)
    ∧ mapGet? (statDatabaseOf rows) "xact_commit"
        = some (.uint (((rows.filterMap id).map pgStat.xact_commit).sum % 2 ^ 64))
    ∧ mapGet? (statDatabaseOf rows) "blk_read_time"
        = (if (rows.filterMap id).filterMap pgStat.blk_read_time = [] then none
           else some (.float ((rows.filterMap id).filterMap pgStat.blk_read_time).sum))
    ∧ mapGet? (statDatabaseOf rows) "blk_write_time"
        = (if (rows.filterMap id).filterMap pgStat.blk_write_time = [] then none
           else some (.float ((rows.filterMap id).filterMap pgStat.blk_write_time).sum))
    ∧ mapGet? (statDatabaseOf rows) "deadlocks"
        = (if (rows.filterMap id).filterMap pgStat.deadlocks = [] then none
           else some (.uint (((rows.filterMap id).filterMap pgStat.deadlocks).sum % 2 ^ 64)))
    ∧ mapGet? (statDatabaseOf rows) "temp_bytes"
        = (if (rows.filterMap id).filterMap pgStat.temp_bytes = [] then none
           else some (.uint (((rows.filterMap id).filterMap pgStat.temp_bytes).sum % 2 ^ 64))) := by
  have hfold : rows.foldl
        (fun acc r => match r with | none => acc | some p => statAdd acc p) {}
      = (rows.filterMap id).foldl statAdd {} :=
    foldl_skipNone _ statAdd (fun _ => rfl) (fun _ _ => rfl) rows {}
  have hform : statDatabaseOf rows = statMapOf ((rows.filterMap id).foldl statAdd {}) := by
    unfold statDatabaseOf
    rw [hfold]
  have hfields := foldl_statAdd_fields (rows.filterMap id) ({} : pgStat)
  have hlook := statMapOf_lookup ((rows.filterMap id).foldl statAdd {})
  have hxc : ((rows.filterMap id).foldl statAdd {}).xact_commit
      = ((rows.filterMap id).map pgStat.xact_commit).sum % 2 ^ 64 := by
    rw [hfields.1]
    simpa using foldl_addU64 ((rows.filterMap id).map pgStat.xact_commit) 0 (by positivity)
  have hbrt : ((rows.filterMap id).foldl statAdd {}).blk_read_time
      = (if (rows.filterMap id).filterMap pgStat.blk_read_time = [] then none
         else some ((rows.filterMap id).filterMap pgStat.blk_read_time).sum) := by
    rw [hfields.2.1,
      foldl_skipNone optStepQ (fun o v => optStepQ o (some v)) (fun _ => rfl) (fun _ _ => rfl),
      show ((rows.filterMap id).map pgStat.blk_read_time).filterMap id
          = (rows.filterMap id).filterMap pgStat.blk_read_time by
        simp [List.filterMap_map]]
    exact foldl_optStepQ_none _
  have hbwt : ((rows.filterMap id).foldl statAdd {}).blk_write_time
      = (if (rows.filterMap id).filterMap pgStat.blk_write_time = [] then none
         else some ((rows.filterMap id).filterMap pgStat.blk_write_time).sum) := by
    rw [hfields.2.2.1,
      foldl_skipNone optStepQ (fun o v => optStepQ o (some v)) (fun _ => rfl) (fun _ _ => rfl),
      show ((rows.filterMap id).map pgStat.blk_write_time).filterMap id
          = (rows.filterMap id).filterMap pgStat.blk_write_time by
        simp [List.filterMap_map]]
    exact foldl_optStepQ_none _
  have hdl : ((rows.filterMap id).foldl statAdd {}).deadlocks
      = (if (rows.filterMap id).filterMap pgStat.deadlocks = [] then none
         else some (((rows.filterMap id).filterMap pgStat.deadlocks).sum % 2 ^ 64)) := by
    rw [hfields.2.2.2.1,
      foldl_skipNone optStepU64 (fun o v => optStepU64 o (some v)) (fun _ => rfl) (fun _ _ => rfl),
      show ((rows.filterMap id).map pgStat.deadlocks).filterMap id
          = (rows.filterMap id).filterMap pgStat.deadlocks by
        simp [List.filterMap_map]]
    refine foldl_optStepU64_none _ fun v hv => ?_
    obtain ⟨p, hp, hpd⟩ := List.mem_filterMap.mp hv
    have := (hWF p hp).1
    rwa [hpd] at this
  have htb : ((rows.filterMap id).foldl statAdd {}).temp_bytes
      = (if (rows.filterMap id).filterMap pgStat.temp_bytes = [] then none
         else some (((rows.filterMap id).filterMap pgStat.temp_bytes).sum % 2 ^ 64)) := by
    rw [hfields.2.2.2.2,
      foldl_skipNone optStepU64 (fun o v => optStepU64 o (some v)) (fun _ => rfl) (fun _ _ => rfl),
      show ((rows.filterMap id).map pgStat.temp_bytes).filterMap id
          = (rows.filterMap id).filterMap pgStat.temp_bytes by
        simp [List.filterMap_map]]
    refine foldl_optStepU64_none _ fun v hv => ?_
    obtain ⟨p, hp, hpd⟩ := List.mem_filterMap.mp hv
    have := (hWF p hp).2
    rwa [hpd] at this
  refine ⟨rfl, ?_, ?_, ?_, ?_, ?_⟩
  · rw [hform, hlook.1, hxc]
  · rw [hform, hlook.2.1, hbrt]
    split <;> simp
  · rw [hform, hlook.2.2.1, hbwt]
    split <;> simp
  · rw [hform, hlook.2.2.2.1, hdl]
    split <;> simp
  · rw [hform, hlook.2.2.2.2, htb]
    split <;> simp

/-- C2 witness: three scanned rows with commit counts 10, 20, 5, deadlock
counts 2, null, 3, and one unscannable row: `xact_commit` is 35, `deadlocks`
is the sum 5 of the two present values, and `temp_bytes`, never reported,
is absent. -/
theorem statDatabase_field_sums_witness :
    mapGet? (statDatabaseOf
        [some { xact_commit := 10, deadlocks := some 2 }, none,
         some { xact_commit := 20 },
         some { xact_commit := 5, deadlocks := some 3 }]) "deadlocks"
      = some (.uint 5)
    ∧ mapGet? (statDatabaseOf
        [some { xact_commit := 10, deadlocks := some 2 }, none,
         some { xact_commit := 20 },
         some { xact_commit := 5, deadlocks := some 3 }]) "xact_commit"
      = some (.uint 35)
    ∧ mapGet? (statDatabaseOf
        [some { xact_commit := 10, deadlocks := some 2 }, none,
         some { xact_commit := 20 },
         some { xact_commit := 5, deadlocks := some 3 }]) "temp_bytes"
      = none := by
  have h := statDatabase_field_sums
    [some { xact_commit := 10, deadlocks := some 2 }, none,
     some { xact_commit := 20 },
     some { xact_commit := 5, deadlocks := some 3 }] (by decide)
  refine ⟨?_, ?_, ?_⟩
  · rw [h.2.2.2.2.1]
    decide
  · rw [h.2.1]
    decide
  · rw [h.2.2.2.2.2]
    decide

/-! Lemmas for the state normalizer (claims C4 and C10). -/

/-- Starting a run-collapse in run state is harmless when the text starts
with an allowed character (or is empty). -/
theorem replRun_true_of_head (post : List Char)
    (hpost : ∀ c, post.head? = some c → isAllowedChar c = true) :
    replRun post true = replRun post false := by
  cases post with
  | nil => rfl
  | cons c rest => simp [replRun, hpost c rfl]

/-- In run state, a block of disallowed characters is consumed silently. -/
theorem replRun_append_disallowed (run post : List Char)
    (hrun : ∀ c ∈ run, isAllowedChar c = false) :
    replRun (run ++ post) true = replRun post true := by
  induction run with
  | nil => rfl
  | cons c rest ih =>
    have hc := hrun c (by simp)
    simp only [List.cons_append, replRun, hc]
    simpa using ih (fun d hd => hrun d (by simp [hd]))

/-- Core of the maximal-run property: a nonempty run of disallowed
characters, bracketed by an allowed (or absent) character on each side,
is replaced by exactly one underscore. -/
theorem replRun_split (run post : List Char)
    (hne : run ≠ []) (hrun : ∀ c ∈ run, isAllowedChar c = false)
    (hpost : ∀ c, post.head? = some c → isAllowedChar c = true) :
    ∀ (pre : List Char) (s : Bool), (pre = [] → s = false) →
      (∀ c, pre.getLast? = some c → isAllowedChar c = true) →
      replRun (pre ++ run ++ post) s = replRun pre s ++ '_' :: replRun post false := by
  intro pre
  induction pre with
  | nil =>
    intro s hs _
    rw [hs rfl]
    cases run with
    | nil => exact absurd rfl hne
    | cons c rest =>
      have hc := hrun c (by simp)
      have h2 := replRun_append_disallowed rest post (fun d hd => hrun d (by simp [hd]))
      have h1 := replRun_true_of_head post hpost
      simp [replRun, hc, h2, h1]
  | cons p pre' ih =>
    intro s hs hlast
    have hlast' : ∀ c, pre'.getLast? = some c → isAllowedChar c = true := by
      intro c hcl
      apply hlast
      cases pre' with
      | nil => simp at hcl
      | cons q qs => rw [List.getLast?_cons_cons]; exact hcl
    by_cases hp : isAllowedChar p = true
    · have hih := ih false (fun _ => rfl) hlast'
      rw [List.append_assoc] at hih
      cases s <;> simp [replRun, hp, hih]
    · have hp' : isAllowedChar p = false := by simpa using hp
      have hpre' : pre' ≠ [] := by
        rintro rfl
        exact absurd (hlast p (by simp)) (by simp [hp'])
      have hih := ih true (fun h => absurd h hpre') hlast'
      rw [List.append_assoc] at hih
      cases s <;> simp [replRun, hp', hih]

/-- C4.  The state normalizer is total (it is a function on all of
`String × Bool`); it appends the literal `_waiting` exactly when the waiting
flag is set; it replaces every maximal run of characters outside
`[A-Za-z0-9_-]` by a single underscore and leaves allowed characters alone;
and it maps `("idle in transaction", false)` to `idle_in_transaction` and
`("active", true)` to `active_waiting`. -/
theorem normalizeState_spec :
    (∀ s : String, normalizeState s true = normalizeState s false ++ "_waiting")
    ∧ (∀ pre run post : List Char,
        run ≠ [] →
        (∀ c ∈ run, isAllowedChar c = false) →
        (∀ c, pre.getLast? = some c → isAllowedChar c = true) →
        (∀ c, post.head? = some c → isAllowedChar c = true) →
        replaceRuns (pre ++ run ++ post) = replaceRuns pre ++ '_' :: replaceRuns post)
    ∧ (∀ l : List Char, (∀ c ∈ l, isAllowedChar c = true) → replaceRuns l = l)
    ∧ normalizeState "idle in transaction" false = "idle_in_transaction"
    ∧ normalizeState "active" true = "active_waiting"
    ∧ normalizeState "idle (aborted)" false = "idle_aborted" := by
  refine ⟨fun s => rfl, ?_, ?_, rfl, rfl, rfl⟩
  · intro pre run post hne hrun hpre hpost
    exact replRun_split run post hne hrun hpost pre false (fun _ => rfl) hpre
  · intro l hl
    induction l with
    | nil => rfl
    | cons c rest ih =>
      have hc := hl c (by simp)
      have ih' := ih (fun d hd => hl d (by simp [hd]))
      simp only [replaceRuns, replRun, hc, if_pos] at ih' ⊢
      simpa using ih'

/-- C4 witness: the run `" !"` between the allowed blocks `"ab"` and `"cd"`
collapses to one underscore. -/
theorem normalizeState_spec_witness :
    replaceRuns ("ab".data ++ " !".data ++ "cd".data)
      = replaceRuns "ab".data ++ '_' :: replaceRuns "cd".data := by
  have hpre : ∀ c, "ab".data.getLast? = some c → isAllowedChar c = true := by
    intro c hc
    have hb : "ab".data.getLast? = some 'b' := by decide
    rw [hb] at hc
    injection hc with h
    subst h
    decide
  have hpost : ∀ c, "cd".data.head? = some c → isAllowedChar c = true := by
    intro c hc
    injection hc with h
    subst h
    decide
  exact normalizeState_spec.2.1 "ab".data " !".data "cd".data (by decide) (by decide) hpre hpost

/-- The head of `dropWhile p` never satisfies `p`. -/
theorem head?_dropWhile_false {α : Type _} (p : α → Bool) (l : List α) :
    ∀ c, (l.dropWhile p).head? = some c → p c = false := by
  induction l with
  | nil => intro c hc; simp at hc
  | cons a rest ih =>
    intro c hc
    by_cases ha : p a = true
    · rw [List.dropWhile_cons, if_pos ha] at hc
      exact ih c hc
    · have ha' : p a = false := by simpa using ha
      rw [List.dropWhile_cons, if_neg (by simp [ha'])] at hc
      simp only [List.head?_cons, Option.some.injEq] at hc
      subst hc
      exact ha'

/-- After `TrimRight(s, "_")` the last character is never an underscore. -/
theorem trimRight_no_underscore (l : List Char) :
    ∀ c, (trimRightUnderscores l).getLast? = some c → c ≠ '_' := by
  intro c hc
  unfold trimRightUnderscores at hc
  rw [List.getLast?_reverse] at hc
  have h := head?_dropWhile_false (fun c => c = '_') l.reverse c hc
  simpa using h

/-- A normalized connection-state key never ends in an underscore. -/
theorem normalizeState_no_trailing (s : String) (w : Bool) :
    (normalizeState s w).data.getLast? ≠ some '_' := by
  cases w with
  | false =>
    intro h
    exact trimRight_no_underscore (replaceRuns s.data) '_' h rfl
  | true =>
    have hdata : (normalizeState s true).data
        = trimRightUnderscores (replaceRuns s.data) ++ "_waiting".data := by
      rw [show normalizeState s true
          = String.mk (trimRightUnderscores (replaceRuns s.data)) ++ "_waiting" from rfl]
      rw [String.data_append]
    rw [hdata, List.getLast?_append]
    intro h
    simp [Option.or] at h

/-! Lemmas on the `fetchConnections` fold (claims C5 and C10). -/

/-- Any key present after the connection-row fold was present in the seed map
or was produced by normalizing a successfully scanned row. -/
theorem connStatOf_keys (rows : List (Option ConnRow)) :
    ∀ (m : StatMap) (k : String),
      (mapGet? (rows.foldl
        (fun stat r =>
          match r with
          | none => stat
          | some c => mapSet stat (normalizeState c.state c.waiting) (.float c.count)) m) k).isSome
        = true →
      (mapGet? m k).isSome = true
      ∨ ∃ c ∈ rows.filterMap id, normalizeState c.state c.waiting = k := by
  induction rows with
  | nil => intro m k h; exact Or.inl h
  | cons r rest ih =>
    intro m k h
    simp only [List.foldl_cons] at h
    cases r with
    | none =>
      rcases ih m k h with h' | ⟨c, hc, hk⟩
      · exact Or.inl h'
      · exact Or.inr ⟨c, by simp [hc], hk⟩
    | some c =>
      rcases ih _ k h with h' | ⟨c', hc', hk⟩
      · rw [mapGet?_mapSet] at h'
        by_cases hkk : k = normalizeState c.state c.waiting
        · exact Or.inr ⟨c, by simp, hkk.symm⟩
        · rw [if_neg hkk] at h'
          exact Or.inl h'
      · exact Or.inr ⟨c', by simp [hc'], hk⟩

/-- The connection-row fold never removes a key. -/
theorem connStatOf_preserved (rows : List (Option ConnRow)) :
    ∀ (m : StatMap) (k : String),
      (mapGet? m k).isSome = true →
      (mapGet? (rows.foldl
        (fun stat r =>
          match r with
          | none => stat
          | some c => mapSet stat (normalizeState c.state c.waiting) (.float c.count)) m) k).isSome
        = true := by
  induction rows with
  | nil => intro m k h; exact h
  | cons r rest ih =>
    intro m k h
    simp only [List.foldl_cons]
    cases r with
    | none => exact ih m k h
    | some c =>
      refine ih _ k ?_
      rw [mapGet?_mapSet]
      by_cases hkk : k = normalizeState c.state c.waiting
      · rw [if_pos hkk]; rfl
      · rw [if_neg hkk]; exact h

/-- A key no scanned row maps to keeps its seed value across the fold. -/
theorem connStatOf_untouched (rows : List (Option ConnRow)) :
    ∀ (m : StatMap) (k : String),
      (∀ c ∈ rows.filterMap id, normalizeState c.state c.waiting ≠ k) →
      mapGet? (rows.foldl
        (fun stat r =>
          match r with
          | none => stat
          | some c => mapSet stat (normalizeState c.state c.waiting) (.float c.count)) m) k
        = mapGet? m k := by
  induction rows with
  | nil => intro m k _; rfl
  | cons r rest ih =>
    intro m k hno
    simp only [List.foldl_cons]
    cases r with
    | none => exact ih m k (fun c hc => hno c (by simp [hc]))
    | some c =>
      rw [ih _ k (fun c' hc' => hno c' (by simp [hc'])), mapGet?_mapSet,
        if_neg (fun h => hno c (by simp) h.symm)]

/-- C5.  On every successful `fetchConnections` run — including over zero
rows — each of the five seeded keys is present in the output, with value 0
unless some scanned row normalized to that key. -/
theorem fetchConnections_seeded (v : version) (rows : List (Option ConnRow)) (k : String)
    (hk : k ∈ ["active", "active_waiting", "idle", "idle_in_transaction",
      "idle_in_transaction_aborted"]) :
    fetchConnections v (fun _ => .ok rows) = .ok (connStatOf rows)
    ∧ (mapGet? (connStatOf rows) k).isSome = true
    ∧ ((∀ c ∈ rows.filterMap id, normalizeState c.state c.waiting ≠ k) →
        mapGet? (connStatOf rows) k = some (.float 0)) := by
  have hseed : mapGet? connSeed k = some (.float 0) := by
    fin_cases hk <;> rfl
  refine ⟨rfl, ?_, ?_⟩
  · have h1 := connStatOf_preserved rows connSeed k (by rw [hseed]; rfl)
    exact h1
  · intro hno
    have h1 := connStatOf_untouched rows connSeed k hno
    have h2 : mapGet? (connStatOf rows) k = mapGet? connSeed k := h1
    rw [h2, hseed]

/-- C5 witness: over zero rows the seeded key `active` is present with
value 0. -/
theorem fetchConnections_seeded_witness :
    mapGet? (connStatOf []) "active" = some (.float 0) :=
  (fetchConnections_seeded ⟨9, 6, 0⟩ [] "active" (by decide)).2.2 (by simp)

/-! Lemmas on `mergeStat` (claim C6). -/

/-- Lookup through `mergeStat`: the source map wins on any key it binds. -/
theorem mapGet?_mergeStat (src : StatMap) :
    ∀ (dst : StatMap) (k : String), (src.map Prod.fst).Nodup →
      mapGet? (mergeStat dst src) k = (mapGet? src k).or (mapGet? dst k) := by
  induction src with
  | nil => intro dst k _; rfl
  | cons e rest ih =>
    obtain ⟨k0, v0⟩ := e
    intro dst k hnd
    simp only [List.map_cons, List.nodup_cons] at hnd
    obtain ⟨hnotm, hnd'⟩ := hnd
    rw [show mergeStat dst ((k0, v0) :: rest) = mergeStat (mapSet dst k0 v0) rest from rfl,
      ih (mapSet dst k0 v0) k hnd']
    by_cases hk : k0 = k
    · subst hk
      rw [mapGet?_eq_none rest k0 hnotm, mapGet?_mapSet, if_pos rfl]
      simp [mapGet?]
    · rw [mapGet?_mapSet, if_neg (fun h => hk h.symm)]
      simp [mapGet?, hk]

/-- C6.  The canonical map is the later-wins merge of the three aggregator
maps in the fixed order counters–connections–size: its lookups are exactly
`size <|> connections <|> counters`, a deterministic function of the three
inputs, and re-merging the same three maps into the canonical map changes no
lookup (idempotence). -/
theorem mergeStat_deterministic_idempotent (a b c : StatMap)
    (ha : (a.map Prod.fst).Nodup) (hb : (b.map Prod.fst).Nodup)
    (hc : (c.map Prod.fst).Nodup) :
    (∀ k, mapGet? (canonicalStat a b c) k
        = (mapGet? c k).or ((mapGet? b k).or (mapGet? a k)))
    ∧ (∀ k, mapGet? (mergeStat (mergeStat (mergeStat (canonicalStat a b c) a) b) c) k
        = mapGet? (canonicalStat a b c) k) := by
  have hlook : ∀ k, mapGet? (canonicalStat a b c) k
      = (mapGet? c k).or ((mapGet? b k).or (mapGet? a k)) := by
    intro k
    unfold canonicalStat
    rw [mapGet?_mergeStat c _ k hc, mapGet?_mergeStat b _ k hb, mapGet?_mergeStat a _ k ha]
    simp [mapGet?, Option.or_none]
  refine ⟨hlook, fun k => ?_⟩
  rw [mapGet?_mergeStat c _ k hc, mapGet?_mergeStat b _ k hb, mapGet?_mergeStat a _ k ha,
    hlook k]
  rcases mapGet? c k with _ | vc <;> rcases mapGet? b k with _ | vb <;>
    rcases mapGet? a k with _ | va <;> simp [Option.or]

/-- C6 witness: on a key collision the later source wins. -/
theorem mergeStat_deterministic_idempotent_witness :
    mapGet? (canonicalStat [("k", .uint 1)] [("k", .uint 2)] []) "k" = some (.uint 2) := by
  have h := (mergeStat_deterministic_idempotent [("k", .uint 1)] [("k", .uint 2)] []
    (by decide) (by decide) (by decide)).1 "k"
  rw [h]
  rfl

/-- C10.  No key the connection-state aggregator can emit ends in an
underscore, while the `connections` graph declares the metric name
`idle_in_transaction_aborted_` (with a trailing underscore): that declared
name equals no key `fetchConnections` can ever produce. -/
theorem connections_graph_orphan_key (lp : String) :
    (∀ (s : String) (w : Bool), (normalizeState s w).data.getLast? ≠ some '_')
    ∧ (∃ G : Graphs, ("connections", G) ∈ GraphDefinition lp
        ∧ "idle_in_transaction_aborted_" ∈ G.metrics.map Metrics.name)
    ∧ (∀ (rows : List (Option ConnRow)) (k : String),
        (mapGet? (connStatOf rows) k).isSome = true →
        k ≠ "idle_in_transaction_aborted_") := by
  refine ⟨fun s w => normalizeState_no_trailing s w, ?_, ?_⟩
  · have hmem : ∀ G : Graphs, ("connections", G) = ((GraphDefinition lp).head (by
        unfold GraphDefinition
        simp)) → ("connections", G) ∈ GraphDefinition lp := by
      intro G hG
      rw [hG]
      exact List.head_mem _
    refine ⟨((GraphDefinition lp).head (by
        unfold GraphDefinition
        simp)).2, hmem _ ?_, ?_⟩
    · unfold GraphDefinition
      rfl
    · unfold GraphDefinition
      simp
  · intro rows k hk hkeq
    subst hkeq
    have h0 : (mapGet? (connStatOf rows) "idle_in_transaction_aborted_").isSome = true := hk
    have h1 := connStatOf_keys rows connSeed "idle_in_transaction_aborted_" h0
    rcases h1 with h2 | ⟨c, _, hkey⟩
    · exact absurd h2 (by decide)
    · have h3 := normalizeState_no_trailing c.state c.waiting
      rw [hkey] at h3
      exact h3 (by decide)

/-- C10 witness: the seeded key `idle` is a key `fetchConnections` emits, and
it differs from the orphan graph metric name. -/
theorem connections_graph_orphan_key_witness :
    "idle" ≠ "idle_in_transaction_aborted_" :=
  (connections_graph_orphan_key "Postgres").2.2 [] "idle" (by decide)

/-- C9 witness: with the connection open (and the run failing later), the
event trace still ends with the close event. -/
theorem fetchMetrics_connection_scoped_witness :
    (FetchMetrics
      { connectOk := true, versionRows := .error (), statDatabaseRows := .ok [],
        activityRows := fun _ => .ok [], databaseSizeRows := .ok [] }).1.getLast?
      = some DBEvent.close :=
  (fetchMetrics_connection_scoped.2.1 _ rfl).1

end MPPostgres
